import Mathlib

/- Verification of the console-management core of `bracket-terminal`
   (`src/bracket-terminal/src/bterm.rs`): the process-wide console registry,
   the `BTerm` render-context facade, and the input-translation logic.

   Embedding conventions: `u32` fields are `Nat` (the source can only ever
   store values below 2^32 in them); `i32` values are `Int`, with explicit
   two's-complement wrapping (`wrap32`) at every operation where the source
   can overflow or casts between widths; Rust's `/` on `i32` is truncating
   division (`Int.tdiv`); code that can panic on out-of-range indexing is
   embedded with `Option` (`none` = panic). -/

namespace BTermSpec

/-- Two's-complement reduction of an integer into the `i32` range
`[-2^31, 2^31)`. -/
def wrap32 (n : Int) : Int := (n + 2^31) % 2^32 - 2^31

/-- Rust `as i32` cast of a `u32` value (represented as a `Nat`). -/
def u32AsI32 (n : Nat) : Int := wrap32 n

/-- `i32` subtraction, wrapping on overflow. -/
def sub32 (a b : Int) : Int := wrap32 (a - b)

/-- `i32` multiplication, wrapping on overflow. -/
def mul32 (a b : Int) : Int := wrap32 (a * b)

/-- Rust `i32` division: truncation toward zero. Used only where the
divisor is of the form `max 1 _` with a non-negative second argument and
hence at least 1, so the division cannot panic there; where the divisor
can be 0 or negative (`mouse_point`), the checked variant `rdiv32` below
models the panic instead. -/
def rdiv (a b : Int) : Int := Int.tdiv a b

/-- Rust `i32` division with its panic cases made explicit: `none` models
the panic on a zero divisor and on the overflowing case
`i32::MIN / -1` (both checked in every Rust build profile). -/
def rdiv32 (a b : Int) : Option Int :=
  if b = 0 ∨ (a = -2^31 ∧ b = -1) then none else some (Int.tdiv a b)

/-- `fn iclamp(val: i32, min: i32, max: i32) -> i32 {
  i32::max(min, i32::min(val, max)) }` -/
def iclamp (val min max : Int) : Int := Max.max min (Min.min val max)

/-- Modelled from the spec: the key-code enumeration delivered by the
backend (`VirtualKeyCode`, re-exported from the windowing layer, not under
the sources reviewed): the letter keys `A`–`Z` plus the remaining
physical-key codes. -/
inductive VirtualKeyCode where
  | Key1 | Key2 | Key3 | Key4 | Key5 | Key6 | Key7 | Key8 | Key9 | Key0
  | A | B | C | D | E | F | G | H | I | J | K | L | M
  | N | O | P | Q | R | S | T | U | V | W | X | Y | Z
  | Escape
  | F1 | F2 | F3 | F4 | F5 | F6 | F7 | F8 | F9 | F10 | F11 | F12
  | F13 | F14 | F15 | F16 | F17 | F18 | F19 | F20 | F21 | F22 | F23 | F24
  | Snapshot | Scroll | Pause
  | Insert | Home | Delete | End | PageDown | PageUp
  | Left | Up | Right | Down
  | Back | Return | Space | Compose | Caret | Numlock
  | Numpad0 | Numpad1 | Numpad2 | Numpad3 | Numpad4
  | Numpad5 | Numpad6 | Numpad7 | Numpad8 | Numpad9
  | NumpadAdd | NumpadDivide | NumpadDecimal | NumpadComma
  | NumpadEnter | NumpadEquals | NumpadMultiply | NumpadSubtract
  | AbntC1 | AbntC2 | Apostrophe | Apps | Asterisk | At | Ax
  | Backslash | Calculator | Capital | Colon | Comma | Convert
  | Equals | Grave | Kana | Kanji
  | LAlt | LBracket | LControl | LShift | LWin
  | Mail | MediaSelect | MediaStop | Minus | Mute | MyComputer
  | NavigateForward | NavigateBackward | NextTrack | NoConvert
  | OEM102 | Period | PlayPause | Plus | Power | PrevTrack
  | RAlt | RBracket | RControl | RShift | RWin
  | Semicolon | Slash | Sleep | Stop | Sysrq | Tab | Underline | Unlabeled
  | VolumeDown | VolumeUp | Wake
  | WebBack | WebFavorites | WebForward | WebHome | WebRefresh
  | WebSearch | WebStop | Yen | Copy | Paste | Cut
deriving DecidableEq, Repr, Inhabited

/-- `pub fn letter_to_option(key: VirtualKeyCode) -> i32`: the 26-arm match
translating the keys `A` through `Z` into `0..25`, with `_ => -1`. -/
def letter_to_option (key : VirtualKeyCode) : Int :=
  match key with
  | .A => 0
  | .B => 1
  | .C => 2
  | .D => 3
  | .E => 4
  | .F => 5
  | .G => 6
  | .H => 7
  | .I => 8
  | .J => 9
  | .K => 10
  | .L => 11
  | .M => 12
  | .N => 13
  | .O => 14
  | .P => 15
  | .Q => 16
  | .R => 17
  | .S => 18
  | .T => 19
  | .U => 20
  | .V => 21
  | .W => 22
  | .X => 23
  | .Y => 24
  | .Z => 25
  | _ => -1

/-- Predicate picking out the 26 letter keys, used to state that every
other key code maps to `-1`. -/
def isLetterKey (key : VirtualKeyCode) : Bool :=
  match key with
  | .A | .B | .C | .D | .E | .F | .G | .H | .I | .J | .K | .L | .M
  | .N | .O | .P | .Q | .R | .S | .T | .U | .V | .W | .X | .Y | .Z => true
  | _ => false

/-- Abstract identifier standing for the result of one console's
`to_xp_layer()` export. -/
structure XpLayer where
  id : Nat
deriving DecidableEq, Repr, Inhabited

/-- Opaque font-table entry (`Font`: a loaded glyph atlas; its contents are
irrelevant to the registry logic). -/
structure Font where
  id : Nat
deriving DecidableEq, Repr, Inhabited

/-- Opaque shader-table entry. -/
structure Shader where
  id : Nat
deriving DecidableEq, Repr, Inhabited

/-- Model of a `Box<dyn Console>`, keeping exactly the observables the
verified operations use: `get_char_size()`, `to_xp_layer()`, and the
dimensions last passed to `resize_pixels` (`none` before any resize). -/
structure ConsoleM where
  charSize : Nat × Nat
  xpLayer : XpLayer
  sizePixels : Option (Nat × Nat)
deriving DecidableEq, Repr, Inhabited

def ConsoleM.get_char_size (c : ConsoleM) : Nat × Nat := c.charSize

def ConsoleM.to_xp_layer (c : ConsoleM) : XpLayer := c.xpLayer

def ConsoleM.resize_pixels (c : ConsoleM) (width height : Nat) : ConsoleM :=
  { c with sizePixels := some (width, height) }

/-- `pub struct DisplayConsole { console, shader_index, font_index }` -/
structure DisplayConsole where
  console : ConsoleM
  shader_index : Nat
  font_index : Nat
deriving DecidableEq, Repr, Inhabited

/-- `pub struct BTermInternal { fonts, shaders, consoles }` — the
process-wide registry (`BACKEND_INTERNAL`), passed explicitly here. -/
structure BTermInternal where
  fonts : List Font
  shaders : List Shader
  consoles : List DisplayConsole
deriving DecidableEq, Repr, Inhabited

def BTermInternal.new : BTermInternal :=
  { fonts := [], shaders := [], consoles := [] }

/-- `pub struct BTerm` — the render context. The `f32` fields (`fps`,
`frame_time_ms`) play no role in any verified operation and are omitted. -/
structure BTerm where
  width_pixels : Nat
  height_pixels : Nat
  active_console : Nat
  key : Option VirtualKeyCode
  mouse_pos : Int × Int
  left_click : Bool
  shift : Bool
  control : Bool
  alt : Bool
  web_button : Option String
  quitting : Bool
  post_scanlines : Bool
  post_screenburn : Bool
deriving DecidableEq, Repr

instance : Inhabited BTerm :=
  ⟨{ width_pixels := 0, height_pixels := 0, active_console := 0, key := none,
     mouse_pos := (0, 0), left_click := false, shift := false,
     control := false, alt := false, web_button := none, quitting := false,
     post_scanlines := false, post_screenburn := false }⟩

/-- `BTerm::register_font`: pushes onto the registry's font table and
returns `Ok(bi.fonts.len() - 1)`. -/
def BTerm.register_font (bi : BTermInternal) (font : Font) :
    BTermInternal × Except String Nat :=
  let bi := { bi with fonts := bi.fonts ++ [font] }
  (bi, Except.ok (bi.fonts.length - 1))

/-- `BTerm::register_console`: pushes a `DisplayConsole` with
`shader_index = 0` and returns `bi.consoles.len() - 1`. -/
def BTerm.register_console (bi : BTermInternal) (new_console : ConsoleM)
    (font_index : Nat) : BTermInternal × Nat :=
  let bi := { bi with consoles := bi.consoles ++
    [{ console := new_console, font_index := font_index, shader_index := 0 }] }
  (bi, bi.consoles.length - 1)

/-- `BTerm::register_console_no_bg`: pushes a `DisplayConsole` with
`shader_index = 1` and returns `bi.consoles.len() - 1`. -/
def BTerm.register_console_no_bg (bi : BTermInternal) (new_console : ConsoleM)
    (font_index : Nat) : BTermInternal × Nat :=
  let bi := { bi with consoles := bi.consoles ++
    [{ console := new_console, font_index := font_index, shader_index := 1 }] }
  (bi, bi.consoles.length - 1)

/-- `BTerm::set_active_console`. -/
def BTerm.set_active_console (ctx : BTerm) (id : Nat) : BTerm :=
  { ctx with active_console := id }

/-- The clamped-division tile mapping used (textually identically) by both
`BTerm::mouse_pos` and the per-console loop of `BTerm::on_mouse_position`:
`iclamp(m * (size as i32) / i32::max(1, px as i32), 0, size as i32 - 1)`. -/
def mouseTileCalc (m : Int) (size px : Nat) : Int :=
  iclamp (rdiv (mul32 m (u32AsI32 size)) (Max.max 1 (u32AsI32 px)))
    0 (sub32 (u32AsI32 size) 1)

/-- `BTerm::mouse_pos` (the accessor method; named `mouse_pos_fn` because
the Lean structure field `mouse_pos` occupies the method's source name):
translates the recorded pixel mouse position into the active console's
tile space. `none` models the panic on an out-of-range active-console
index. -/
def BTerm.mouse_pos_fn (bi : BTermInternal) (ctx : BTerm) :
    Option (Int × Int) := do
  let dc ← bi.consoles[ctx.active_console]?
  let max_sizes := dc.console.get_char_size
  some (mouseTileCalc ctx.mouse_pos.1 max_sizes.1 ctx.width_pixels,
        mouseTileCalc ctx.mouse_pos.2 max_sizes.2 ctx.height_pixels)

/-- `BTerm::mouse_point`: same mapping but the divisor is
`self.width_pixels.max(1) as i32` (the `u32` max is taken before the cast,
unlike `mouse_pos` which casts first and takes `i32::max`). Because that
cast can make the divisor negative — `-1` at `width_pixels = u32::MAX` —
the division itself can hit the `i32::MIN / -1` overflow panic, modelled
here by `rdiv32` returning `none` (as is the panic on an out-of-range
active-console index). -/
def BTerm.mouse_point (bi : BTermInternal) (ctx : BTerm) :
    Option (Int × Int) := do
  let dc ← bi.consoles[ctx.active_console]?
  let max_sizes := dc.console.get_char_size
  let qx ← rdiv32 (mul32 ctx.mouse_pos.1 (u32AsI32 max_sizes.1))
    (u32AsI32 (Nat.max ctx.width_pixels 1))
  let qy ← rdiv32 (mul32 ctx.mouse_pos.2 (u32AsI32 max_sizes.2))
    (u32AsI32 (Nat.max ctx.height_pixels 1))
  some (iclamp qx 0 (sub32 (u32AsI32 max_sizes.1) 1),
        iclamp qy 0 (sub32 (u32AsI32 max_sizes.2) 1))

/-- The spec's mouse-tile formula, read over unbounded integers with
truncating division:
`clamp(mouse * grid_dim / max(1, window_px), 0, grid_dim - 1)`. -/
def specMouseTile (m : Int) (size px : Nat) : Int :=
  iclamp (rdiv (m * size) (Max.max 1 px)) 0 ((size : Int) - 1)

/-- `BTerm::quit`. -/
def BTerm.quit (ctx : BTerm) : BTerm := { ctx with quitting := true }

/-- The serializable REX Paint file: dimensions plus a layer list. -/
structure XpFile where
  width : Nat
  height : Nat
  layers : List XpLayer
deriving DecidableEq, Repr

/-- Modelled from the spec: `XpFile::new(width, height)` (rex module, not
under the sources reviewed) creates a file of the given dimensions with no
layers yet. -/
def XpFile.new (width height : Nat) : XpFile :=
  { width := width, height := height, layers := [] }

/-- `BTerm::to_xp_file`: pushes the active console's layer, then — when
more than one console is registered — the layer of every console from
index 1 on (`bi.consoles.iter().skip(1)`). `none` models the panic on an
out-of-range active-console index. -/
def BTerm.to_xp_file (bi : BTermInternal) (ctx : BTerm)
    (width height : Nat) : Option XpFile := do
  let active ← bi.consoles[ctx.active_console]?
  let xp := XpFile.new width height
  let xp := { xp with layers := xp.layers ++ [active.console.to_xp_layer] }
  let xp :=
    if bi.consoles.length > 1 then
      { xp with layers := xp.layers ++
          (bi.consoles.drop 1).map (fun layer => layer.console.to_xp_layer) }
    else xp
  some xp

/-- `BTerm::resize_pixels` (from the `Console` impl for `BTerm`): records
the new window dimensions on the context, then forwards `resize_pixels` to
every registered console. -/
def BTerm.resize_pixels (bi : BTermInternal) (ctx : BTerm)
    (width height : Nat) : BTermInternal × BTerm :=
  let ctx := { ctx with width_pixels := width, height_pixels := height }
  let resized :=
    bi.consoles.map fun c =>
      { c with console := c.console.resize_pixels width height }
  let bi := { bi with consoles := resized }
  (bi, ctx)

/-- The normalized events the input translator appends to the process-wide
log. -/
inductive BEvent where
  | KeyboardInput (key : VirtualKeyCode) (scan_code : Nat) (pressed : Bool)
  | MouseClick (button : Nat) (pressed : Bool)
deriving DecidableEq, Repr

/-- Modelled from the spec: the process-wide input state (`INPUT`, input
module, not under the sources reviewed): raw pixel mouse position, the
per-console-index tile-position table, the per-button down/up table, and
the append-only event log. -/
structure InputM where
  mouse_pixel : Int × Int
  mouse_tile : Nat → Option (Int × Int)
  mouse_buttons : Nat → Bool
  events : List BEvent

/-- The input state before any event. -/
def InputM.empty : InputM :=
  { mouse_pixel := (0, 0), mouse_tile := fun _ => none,
    mouse_buttons := fun _ => false, events := [] }

/-- Modelled from the spec: records the raw pixel mouse position. -/
def InputM.on_mouse_pixel_position (input : InputM) (x y : Int) : InputM :=
  { input with mouse_pixel := (x, y) }

/-- Modelled from the spec: records console `id`'s tile-space mouse
position under index `id`. -/
def InputM.on_mouse_tile_position (input : InputM) (id : Nat) (x y : Int) :
    InputM :=
  { input with mouse_tile :=
      fun j => if j = id then some (x, y) else input.mouse_tile j }

/-- Modelled from the spec: marks button `num` down in the button-state
table. -/
def InputM.on_mouse_button_down (input : InputM) (num : Nat) : InputM :=
  { input with mouse_buttons :=
      fun j => if j = num then true else input.mouse_buttons j }

/-- Modelled from the spec: marks button `num` up in the button-state
table. -/
def InputM.on_mouse_button_up (input : InputM) (num : Nat) : InputM :=
  { input with mouse_buttons :=
      fun j => if j = num then false else input.mouse_buttons j }

/-- Modelled from the spec: appends one event to the log. -/
def InputM.push_event (input : InputM) (event : BEvent) : InputM :=
  { input with events := input.events ++ [event] }

/-- `BTerm::on_mouse_button`: sets the one-shot `left_click` flag for
button 0, updates the button-state table (down on press, up on release)
and appends one `MouseClick` event. -/
def BTerm.on_mouse_button (ctx : BTerm) (input : InputM) (button_num : Nat)
    (pressed : Bool) : BTerm × InputM :=
  let ctx := if button_num = 0 then { ctx with left_click := true } else ctx
  let input := if pressed then input.on_mouse_button_down button_num
               else input.on_mouse_button_up button_num
  let input := input.push_event (BEvent.MouseClick button_num pressed)
  (ctx, input)

/-- The `for (i, cons) in bi.consoles.iter().enumerate()` loop of
`BTerm::on_mouse_position`, with `i` the enumeration counter: records each
console's tile position under its index, computed with the same
clamped-division expression as `mouse_pos`. -/
def recordTiles (ctx : BTerm) : InputM → Nat → List DisplayConsole → InputM
  | input, _, [] => input
  | input, i, cons :: rest =>
      let max_sizes := cons.console.get_char_size
      recordTiles ctx
        (input.on_mouse_tile_position i
          (mouseTileCalc ctx.mouse_pos.1 max_sizes.1 ctx.width_pixels)
          (mouseTileCalc ctx.mouse_pos.2 max_sizes.2 ctx.height_pixels))
        (i + 1) rest

/-- `BTerm::on_mouse_position`. The `f64 -> i32` casts of the raw event
coordinates are taken as given: `x y : Int` are the already-cast values
(the source stores `(x as i32, y as i32)` and passes the raw `f64`s only
to `on_mouse_pixel_position`, modelled here on the cast values). -/
def BTerm.on_mouse_position (bi : BTermInternal) (ctx : BTerm)
    (input : InputM) (x y : Int) : BTerm × InputM :=
  let ctx := { ctx with mouse_pos := (x, y) }
  let input := input.on_mouse_pixel_position x y
  (ctx, recordTiles ctx input 0 bi.consoles)

/-- The error message of `BTerm::init_raw` (built without a literal
apostrophe character). -/
def u32ConversionError : String :=
  "Couldn" ++ String.singleton (Char.ofNat 39) ++ "t convert to u32"

/-- `BTerm::init_raw`. The generic `TryInto<u32>` conversions of the two
dimensions are taken as given by their outcomes (`some w` = `Ok(w)`); the
backend `init_raw` (HAL, not under the sources reviewed) is abstracted as
the function argument `backend`. -/
def BTerm.init_raw (backend : Nat → Nat → Except String BTerm)
    (width_pixels height_pixels : Option Nat) : Except String BTerm :=
  match width_pixels, height_pixels with
  | some w, some h => backend w h
  | _, _ => Except.error u32ConversionError

/-- One registration call, for stating registry invariants across call
sequences. -/
inductive RegOp where
  | font (f : Font)
  | console (c : ConsoleM) (font_index : Nat)
  | consoleNoBg (c : ConsoleM) (font_index : Nat)
deriving DecidableEq, Repr, Inhabited

/-- Whether a registration call targets the font table (`true`) or the
console table (`false`). -/
def RegOp.isFont : RegOp → Bool
  | .font _ => true
  | _ => false

/-- Performs one registration call and returns the index it hands back. -/
def applyReg (bi : BTermInternal) : RegOp → BTermInternal × Nat
  | .font f =>
      let r := BTerm.register_font bi f
      (r.1, (r.2.toOption).getD 0)
  | .console c fi => BTerm.register_console bi c fi
  | .consoleNoBg c fi => BTerm.register_console_no_bg bi c fi

/-- Performs a sequence of registration calls, collecting the returned
indices in order. -/
def runOps : BTermInternal → List RegOp → BTermInternal × List Nat
  | bi, [] => (bi, [])
  | bi, op :: rest =>
      let r := applyReg bi op
      let rr := runOps r.1 rest
      (rr.1, r.2 :: rr.2)

/-- Convenience constructor for a concrete render context. -/
def mkCtx (w h ac : Nat) (mx my : Int) : BTerm :=
  { width_pixels := w, height_pixels := h, active_console := ac, key := none,
    mouse_pos := (mx, my), left_click := false, shift := false,
    control := false, alt := false, web_button := none, quitting := false,
    post_scanlines := false, post_screenburn := false }

/-- Convenience constructor for a registered console slot. -/
def mkSlot (cols rows lid : Nat) : DisplayConsole :=
  { console := { charSize := (cols, rows), xpLayer := ⟨lid⟩, sizePixels := none },
    shader_index := 0, font_index := 0 }

/-- A registry holding the given console slots and nothing else. -/
def mkRegistry (slots : List DisplayConsole) : BTermInternal :=
  { fonts := [], shaders := [], consoles := slots }

lemma wrap32_eq_self {n : Int} (h1 : -2^31 ≤ n) (h2 : n < 2^31) :
    wrap32 n = n := by
  unfold wrap32
  have h3 : (n + 2^31) % 2^32 = n + 2^31 :=
    Int.emod_eq_of_lt (by omega) (by omega)
  omega

lemma u32AsI32_eq_self {n : Nat} (h : n < 2^31) : u32AsI32 n = (n : Int) := by
  unfold u32AsI32
  exact wrap32_eq_self (by omega) (by exact_mod_cast h)

lemma iclamp_bounds (v lo hi : Int) (h : lo ≤ hi) :
    lo ≤ iclamp v lo hi ∧ iclamp v lo hi ≤ hi := by
  unfold iclamp
  exact ⟨le_max_left _ _, max_le h (min_le_right _ _)⟩

/-- **C3.** For all `val, min, max` with `min ≤ max`, `iclamp(val, min, max)`
returns `min` if `val < min`, `max` if `val > max`, and `val` otherwise. -/
theorem iclamp_spec (val min max : Int) (h : min ≤ max) :
    (val < min → iclamp val min max = min) ∧
    (max < val → iclamp val min max = max) ∧
    (min ≤ val → val ≤ max → iclamp val min max = val) := by
  unfold iclamp
  refine ⟨fun h1 => ?_, fun h1 => ?_, fun h1 h2 => ?_⟩
  · rw [min_eq_left (le_trans (le_of_lt h1) h), max_eq_left (le_of_lt h1)]
  · rw [min_eq_right (le_of_lt h1), max_eq_right h]
  · rw [min_eq_left h2, max_eq_right h1]

/-- Witness for C3: evaluation at the documented test vectors. -/
theorem iclamp_spec_witness :
    (0 : Int) ≤ 2 ∧ iclamp 1 0 2 = 1 ∧ iclamp 5 0 2 = 2 ∧ iclamp (-5) 0 2 = 0 :=
  ⟨by decide,
   (iclamp_spec 1 0 2 (by decide)).2.2 (by decide) (by decide),
   (iclamp_spec 5 0 2 (by decide)).2.1 (by decide),
   (iclamp_spec (-5) 0 2 (by decide)).1 (by decide)⟩

/-- **C7.** `letter_to_option` maps the letter keys `A`–`Z` to `0`–`25` in
order and every other key code to `-1`. -/
theorem letter_to_option_spec :
    (letter_to_option .A = 0 ∧ letter_to_option .B = 1 ∧
     letter_to_option .C = 2 ∧ letter_to_option .D = 3 ∧
     letter_to_option .E = 4 ∧ letter_to_option .F = 5 ∧
     letter_to_option .G = 6 ∧ letter_to_option .H = 7 ∧
     letter_to_option .I = 8 ∧ letter_to_option .J = 9 ∧
     letter_to_option .K = 10 ∧ letter_to_option .L = 11 ∧
     letter_to_option .M = 12 ∧ letter_to_option .N = 13 ∧
     letter_to_option .O = 14 ∧ letter_to_option .P = 15 ∧
     letter_to_option .Q = 16 ∧ letter_to_option .R = 17 ∧
     letter_to_option .S = 18 ∧ letter_to_option .T = 19 ∧
     letter_to_option .U = 20 ∧ letter_to_option .V = 21 ∧
     letter_to_option .W = 22 ∧ letter_to_option .X = 23 ∧
     letter_to_option .Y = 24 ∧ letter_to_option .Z = 25) ∧
    (∀ key : VirtualKeyCode, isLetterKey key = false →
      letter_to_option key = -1) := by
  constructor
  · decide
  · intro key
    cases key <;> decide

/-- Witness for C7: a concrete non-letter key maps to `-1`. -/
theorem letter_to_option_spec_witness :
    isLetterKey .Escape = false ∧ letter_to_option .Escape = -1 :=
  ⟨by decide, letter_to_option_spec.2 .Escape (by decide)⟩

/-- **C9.** `register_font` never returns an error: for every registry state
and font it returns `Ok` with the new index (the previous font-table
length), having appended the font. -/
theorem register_font_never_errors (bi : BTermInternal) (font : Font) :
    (BTerm.register_font bi font).2 = Except.ok bi.fonts.length ∧
    (BTerm.register_font bi font).1.fonts = bi.fonts ++ [font] := by
  unfold BTerm.register_font
  simp

/-- **C8.** `init_raw` returns an error value whenever either dimension
fails its conversion to `u32`, and delegates to the backend exactly when
both conversions succeed. -/
theorem init_raw_spec (backend : Nat → Nat → Except String BTerm)
    (width_pixels height_pixels : Option Nat) :
    (width_pixels = none ∨ height_pixels = none →
      BTerm.init_raw backend width_pixels height_pixels =
        Except.error u32ConversionError) ∧
    (∀ w h, width_pixels = some w → height_pixels = some h →
      BTerm.init_raw backend width_pixels height_pixels = backend w h) := by
  cases width_pixels <;> cases height_pixels <;>
    simp [BTerm.init_raw]

/-- Witness for C8: a failed width conversion yields the error value even
though the backend would have succeeded. -/
theorem init_raw_spec_witness :
    BTerm.init_raw (fun w h => Except.ok (mkCtx w h 0 0 0)) none (some 5) =
      Except.error u32ConversionError :=
  (init_raw_spec (fun w h => Except.ok (mkCtx w h 0 0 0)) none (some 5)).1
    (Or.inl rfl)

/-- **C10.** `on_mouse_button` sets `left_click` for button 0 regardless of
press/release, leaves it unchanged for other buttons, records the button's
new down/up state, and appends exactly one `MouseClick` event. -/
theorem on_mouse_button_spec (ctx : BTerm) (input : InputM)
    (button_num : Nat) (pressed : Bool) :
    (BTerm.on_mouse_button ctx input button_num pressed).1.left_click =
      (if button_num = 0 then true else ctx.left_click) ∧
    (BTerm.on_mouse_button ctx input button_num pressed).2.events =
      input.events ++ [BEvent.MouseClick button_num pressed] ∧
    (BTerm.on_mouse_button ctx input button_num pressed).2.mouse_buttons
      button_num = pressed ∧
    (∀ b, b ≠ button_num →
      (BTerm.on_mouse_button ctx input button_num pressed).2.mouse_buttons b =
        input.mouse_buttons b) := by
  unfold BTerm.on_mouse_button InputM.push_event InputM.on_mouse_button_down
    InputM.on_mouse_button_up
  refine ⟨?_, ?_, ?_, ?_⟩
  · by_cases h0 : button_num = 0 <;> simp [h0]
  · cases pressed <;> simp
  · cases pressed <;> simp
  · intro b hb
    cases pressed <;> simp [hb]

/-- Witness for C10: a press of button 2 leaves button 0's state alone. -/
theorem on_mouse_button_spec_witness :
    (BTerm.on_mouse_button (mkCtx 0 0 0 0 0) InputM.empty 2 true).2.mouse_buttons
      0 = InputM.empty.mouse_buttons 0 ∧ (0 : Nat) ≠ 2 :=
  ⟨(on_mouse_button_spec (mkCtx 0 0 0 0 0) InputM.empty 2 true).2.2.2 0
    (by decide), by decide⟩

/-- **C1** (failing-input evaluation). With two registered consoles whose
layers are `⟨0⟩` and `⟨1⟩` and `active_console = 1`, `to_xp_file` produces
the layer list `[⟨1⟩, ⟨1⟩]`: console 0's layer is missing and the active
console's layer appears twice, because the source skips index 1 onward
rather than the active console. -/
theorem to_xp_file_failing_input :
    BTerm.to_xp_file (mkRegistry [mkSlot 4 4 0, mkSlot 4 4 1])
        (mkCtx 0 0 1 0 0) 5 5 =
      some { width := 5, height := 5, layers := [⟨1⟩, ⟨1⟩] } ∧
    (⟨0⟩ : XpLayer) ∉ [(⟨1⟩ : XpLayer), ⟨1⟩] := by
  constructor
  · rfl
  · decide

/-- **C2** (counterexample). At window size `2^31` (representable in the
`u32` field), `mouse_pos`'s divisor `i32::max(1, width_pixels as i32)`
collapses to 1 because the cast wraps negative, so with a 10×10 grid and
mouse at (100, 100) it returns (9, 9); the spec formula
`clamp(100 * 10 / max(1, 2^31), 0, 9)` gives 0, and `mouse_point` (which
takes the `u32` max before casting) returns (0, 0). Moreover at window
size `u32::MAX` with a 2-wide grid and mouse x `-2^30`, `mouse_point`
divides `i32::MIN` by `-1` and panics (`none`) instead of returning a
pair at all. -/
theorem mouse_tile_formula_counterexample :
    BTerm.mouse_pos_fn (mkRegistry [mkSlot 10 10 0])
        (mkCtx (2^31) (2^31) 0 100 100) = some (9, 9) ∧
    BTerm.mouse_point (mkRegistry [mkSlot 10 10 0])
        (mkCtx (2^31) (2^31) 0 100 100) = some (0, 0) ∧
    specMouseTile 100 10 (2^31) = 0 ∧
    ((9 : Int), (9 : Int)) ≠ ((0 : Int), (0 : Int)) ∧
    BTerm.mouse_point (mkRegistry [mkSlot 2 2 0])
        (mkCtx (2^32 - 1) (2^32 - 1) 0 (-(2^30)) 0) = none := by
  refine ⟨?_, ?_, ?_, by decide, ?_⟩ <;> rfl

lemma sub32_size_one {size : Nat} (h1 : 1 ≤ size) (h2 : size < 2^31) :
    sub32 (u32AsI32 size) 1 = (size : Int) - 1 := by
  rw [u32AsI32_eq_self h2]
  unfold sub32
  exact wrap32_eq_self (by omega) (by omega)

lemma mouseTileCalc_eq_spec (m : Int) (size px : Nat)
    (h1 : 1 ≤ size) (h2 : size < 2^31) (hpx : px < 2^31)
    (hm1 : -2^31 ≤ m * size) (hm2 : m * size < 2^31) :
    mouseTileCalc m size px = specMouseTile m size px := by
  unfold mouseTileCalc specMouseTile
  rw [sub32_size_one h1 h2, u32AsI32_eq_self h2, u32AsI32_eq_self hpx,
    mul32, wrap32_eq_self hm1 hm2]

lemma mousePointCalc_eq_spec (m : Int) (size px : Nat)
    (h1 : 1 ≤ size) (h2 : size < 2^31) (hpx : px < 2^31)
    (hm1 : -2^31 ≤ m * size) (hm2 : m * size < 2^31) :
    iclamp (rdiv (mul32 m (u32AsI32 size)) (u32AsI32 (Nat.max px 1)))
        0 (sub32 (u32AsI32 size) 1) = specMouseTile m size px := by
  have hmax : Nat.max px 1 < 2^31 := Nat.max_lt.mpr ⟨hpx, by norm_num⟩
  have hd : ((Nat.max px 1 : Nat) : Int) = Max.max 1 (px : Int) := by
    push_cast
    exact max_comm _ _
  unfold specMouseTile
  rw [sub32_size_one h1 h2, u32AsI32_eq_self h2, u32AsI32_eq_self hmax,
    mul32, wrap32_eq_self hm1 hm2, hd]

lemma rdiv32_of_pos (a b : Int) (hb : 0 < b) :
    rdiv32 a b = some (rdiv a b) := by
  unfold rdiv32 rdiv
  rw [if_neg (by omega)]

lemma mouse_point_shape (bi : BTermInternal) (ctx : BTerm) (cols rows : Nat)
    (hac : ctx.active_console < bi.consoles.length)
    (hsz2 : (bi.consoles[ctx.active_console]).console.charSize = (cols, rows)) :
    BTerm.mouse_point bi ctx =
      (rdiv32 (mul32 ctx.mouse_pos.1 (u32AsI32 cols))
          (u32AsI32 (Nat.max ctx.width_pixels 1))).bind
        (fun qx =>
          (rdiv32 (mul32 ctx.mouse_pos.2 (u32AsI32 rows))
              (u32AsI32 (Nat.max ctx.height_pixels 1))).bind
            (fun qy =>
              some (iclamp qx 0 (sub32 (u32AsI32 cols) 1),
                    iclamp qy 0 (sub32 (u32AsI32 rows) 1)))) := by
  unfold BTerm.mouse_point
  rw [List.getElem?_eq_getElem hac, Option.bind_eq_bind, Option.some_bind]
  simp only [ConsoleM.get_char_size]
  rw [hsz2]
  rfl

set_option maxRecDepth 4000 in
/-- **C2** (amended). With the active console's grid `(cols, rows)`,
`1 ≤ cols, rows < 2^31`: (a) `mouse_pos` returns a pair for every mouse
position and every window pixel size whatsoever (its divisor is
`i32::max(1, _)`, so it cannot hit the division panic); (b) every pair
either accessor returns lies inside `[0, cols-1] × [0, rows-1]`
(`mouse_point` can instead panic — modelled as `none` — when its cast
divisor is `-1` and the wrapped product is `i32::MIN`); (c) whenever the
window pixel sizes are below `2^31` and the products `mouse_x * cols`,
`mouse_y * rows` fit in `i32`, both return exactly the spec formula
`(clamp(mouse_x * cols / max(1, w), 0, cols-1),
  clamp(mouse_y * rows / max(1, h), 0, rows-1))`. -/
theorem mouse_tile_amended (bi : BTermInternal) (ac cols rows : Nat)
    (hac : ac < bi.consoles.length)
    (hsz : (bi.consoles.getD ac default).console.charSize = (cols, rows))
    (hc1 : 1 ≤ cols) (hc2 : cols < 2^31) (hr1 : 1 ≤ rows) (hr2 : rows < 2^31) :
    (∀ (w h : Nat) (mx my : Int), ∃ p : Int × Int,
        BTerm.mouse_pos_fn bi (mkCtx w h ac mx my) = some p) ∧
    (∀ (w h : Nat) (mx my : Int) (p : Int × Int),
        (BTerm.mouse_pos_fn bi (mkCtx w h ac mx my) = some p ∨
         BTerm.mouse_point bi (mkCtx w h ac mx my) = some p) →
        0 ≤ p.1 ∧ p.1 ≤ (cols : Int) - 1 ∧
        0 ≤ p.2 ∧ p.2 ≤ (rows : Int) - 1) ∧
    (∀ (w h : Nat) (mx my : Int), w < 2^31 → h < 2^31 →
        -2^31 ≤ mx * cols → mx * cols < 2^31 →
        -2^31 ≤ my * rows → my * rows < 2^31 →
        BTerm.mouse_pos_fn bi (mkCtx w h ac mx my) =
          some (specMouseTile mx cols w, specMouseTile my rows h) ∧
        BTerm.mouse_point bi (mkCtx w h ac mx my) =
          some (specMouseTile mx cols w, specMouseTile my rows h)) := by
  have hsz2 : (bi.consoles[ac]).console.charSize = (cols, rows) := by
    rw [← List.getD_eq_getElem _ default hac]
    exact hsz
  have hpos : ∀ (w h : Nat) (mx my : Int),
      BTerm.mouse_pos_fn bi (mkCtx w h ac mx my) =
        some (mouseTileCalc mx cols w, mouseTileCalc my rows h) := by
    intro w h mx my
    simp [BTerm.mouse_pos_fn, mkCtx, List.getElem?_eq_getElem hac,
      ConsoleM.get_char_size, hsz2]
  have hshape : ∀ (w h : Nat) (mx my : Int),
      BTerm.mouse_point bi (mkCtx w h ac mx my) =
        (rdiv32 (mul32 mx (u32AsI32 cols)) (u32AsI32 (Nat.max w 1))).bind
          (fun qx =>
            (rdiv32 (mul32 my (u32AsI32 rows)) (u32AsI32 (Nat.max h 1))).bind
              (fun qy =>
                some (iclamp qx 0 (sub32 (u32AsI32 cols) 1),
                      iclamp qy 0 (sub32 (u32AsI32 rows) 1)))) := by
    intro w h mx my
    exact mouse_point_shape bi (mkCtx w h ac mx my) cols rows hac hsz2
  have hb : ∀ (q : Int) (size : Nat), 1 ≤ size → size < 2^31 →
      0 ≤ iclamp q 0 (sub32 (u32AsI32 size) 1) ∧
      iclamp q 0 (sub32 (u32AsI32 size) 1) ≤ (size : Int) - 1 := by
    intro q size h1 h2
    rw [sub32_size_one h1 h2]
    exact iclamp_bounds _ _ _ (by omega)
  have hdivpos : ∀ px : Nat, px < 2^31 → 0 < u32AsI32 (Nat.max px 1) := by
    intro px hpx
    have hmax : Nat.max px 1 < 2^31 := Nat.max_lt.mpr ⟨hpx, by norm_num⟩
    rw [u32AsI32_eq_self hmax]
    have h1 : 0 < Nat.max px 1 :=
      lt_of_lt_of_le Nat.zero_lt_one (Nat.le_max_right px 1)
    exact_mod_cast h1
  refine ⟨?_, ?_, ?_⟩
  · intro w h mx my
    exact ⟨(mouseTileCalc mx cols w, mouseTileCalc my rows h), hpos w h mx my⟩
  · intro w h mx my p hp
    rcases hp with hp | hp
    · rw [hpos w h mx my] at hp
      obtain rfl : (mouseTileCalc mx cols w, mouseTileCalc my rows h) = p :=
        Option.some_inj.mp hp
      exact ⟨(hb _ cols hc1 hc2).1, (hb _ cols hc1 hc2).2,
             (hb _ rows hr1 hr2).1, (hb _ rows hr1 hr2).2⟩
    · rw [hshape w h mx my] at hp
      cases hqx : rdiv32 (mul32 mx (u32AsI32 cols)) (u32AsI32 (Nat.max w 1)) with
      | none => rw [hqx] at hp; simp at hp
      | some qx =>
        cases hqy : rdiv32 (mul32 my (u32AsI32 rows)) (u32AsI32 (Nat.max h 1)) with
        | none => rw [hqx, hqy] at hp; simp at hp
        | some qy =>
          rw [hqx, hqy] at hp
          simp only [Option.some_bind] at hp
          obtain rfl :
              (iclamp qx 0 (sub32 (u32AsI32 cols) 1),
               iclamp qy 0 (sub32 (u32AsI32 rows) 1)) = p :=
            Option.some_inj.mp hp
          exact ⟨(hb _ cols hc1 hc2).1, (hb _ cols hc1 hc2).2,
                 (hb _ rows hr1 hr2).1, (hb _ rows hr1 hr2).2⟩
  · intro w h mx my hw hh hm1 hm2 hm3 hm4
    constructor
    · rw [hpos w h mx my, mouseTileCalc_eq_spec mx cols w hc1 hc2 hw hm1 hm2,
        mouseTileCalc_eq_spec my rows h hr1 hr2 hh hm3 hm4]
    · rw [hshape w h mx my,
        rdiv32_of_pos _ _ (hdivpos w hw), rdiv32_of_pos _ _ (hdivpos h hh)]
      simp only [Option.some_bind]
      rw [mousePointCalc_eq_spec mx cols w hc1 hc2 hw hm1 hm2,
        mousePointCalc_eq_spec my rows h hr1 hr2 hh hm3 hm4]

/-- Witness for C2 (amended): a 10×8 grid in a 100×50 window with the
mouse at (55, 27) maps to tile (5, 4) through both accessors. -/
theorem mouse_tile_amended_witness :
    BTerm.mouse_pos_fn (mkRegistry [mkSlot 10 8 0]) (mkCtx 100 50 0 55 27) =
      some (5, 4) ∧
    BTerm.mouse_point (mkRegistry [mkSlot 10 8 0]) (mkCtx 100 50 0 55 27) =
      some (5, 4) := by
  have h := (mouse_tile_amended (mkRegistry [mkSlot 10 8 0]) 0 10 8
    (by decide) (by decide) (by decide) (by decide) (by decide) (by decide)).2.2
    100 50 55 27 (by decide) (by decide) (by decide) (by decide) (by decide)
    (by decide)
  obtain ⟨h1, h2⟩ := h
  refine ⟨?_, ?_⟩
  · rw [h1]
    rfl
  · rw [h2]
    rfl

/-- **C5.** `resize_pixels` stores the new dimensions on the context and,
before returning, forwards `resize_pixels(width, height)` to every
registered console (changing nothing else about the registry). -/
theorem resize_pixels_spec (bi : BTermInternal) (ctx : BTerm)
    (width height : Nat) :
    (BTerm.resize_pixels bi ctx width height).2 =
      { ctx with width_pixels := width, height_pixels := height } ∧
    (BTerm.resize_pixels bi ctx width height).1.fonts = bi.fonts ∧
    (BTerm.resize_pixels bi ctx width height).1.shaders = bi.shaders ∧
    (BTerm.resize_pixels bi ctx width height).1.consoles.length =
      bi.consoles.length ∧
    (∀ i, i < bi.consoles.length →
      ((BTerm.resize_pixels bi ctx width height).1.consoles.getD i
          default).console.sizePixels = some (width, height) ∧
      ((BTerm.resize_pixels bi ctx width height).1.consoles.getD i
          default).console.charSize =
        (bi.consoles.getD i default).console.charSize ∧
      ((BTerm.resize_pixels bi ctx width height).1.consoles.getD i
          default).console.xpLayer =
        (bi.consoles.getD i default).console.xpLayer ∧
      ((BTerm.resize_pixels bi ctx width height).1.consoles.getD i
          default).font_index = (bi.consoles.getD i default).font_index ∧
      ((BTerm.resize_pixels bi ctx width height).1.consoles.getD i
          default).shader_index =
        (bi.consoles.getD i default).shader_index) := by
  refine ⟨rfl, rfl, rfl, by simp [BTerm.resize_pixels], ?_⟩
  intro i hi
  have hlen : i < ((BTerm.resize_pixels bi ctx width height).1.consoles).length := by
    simpa [BTerm.resize_pixels] using hi
  have h1 : (BTerm.resize_pixels bi ctx width height).1.consoles.getD i default =
      { bi.consoles.getD i default with console :=
          (bi.consoles.getD i default).console.resize_pixels width height } := by
    have hmap : (BTerm.resize_pixels bi ctx width height).1.consoles =
        bi.consoles.map (fun c =>
          { c with console := c.console.resize_pixels width height }) := rfl
    rw [List.getD_eq_getElem _ _ hlen]
    simp only [hmap]
    rw [List.getElem_map, List.getD_eq_getElem _ _ hi]
  rw [h1]
  exact ⟨rfl, rfl, rfl, rfl, rfl⟩

/-- Witness for C5: resizing with two registered consoles updates the
second (non-active) console's recorded pixel dimensions too. -/
theorem resize_pixels_spec_witness :
    ((BTerm.resize_pixels (mkRegistry [mkSlot 4 4 0, mkSlot 8 8 1])
        (mkCtx 100 50 0 0 0) 640 480).1.consoles.getD 1
        default).console.sizePixels = some (640, 480) ∧
    (BTerm.resize_pixels (mkRegistry [mkSlot 4 4 0, mkSlot 8 8 1])
        (mkCtx 100 50 0 0 0) 640 480).2.width_pixels = 640 :=
  ⟨((resize_pixels_spec (mkRegistry [mkSlot 4 4 0, mkSlot 8 8 1])
      (mkCtx 100 50 0 0 0) 640 480).2.2.2.2 1 (by decide)).1,
   by rw [(resize_pixels_spec (mkRegistry [mkSlot 4 4 0, mkSlot 8 8 1])
      (mkCtx 100 50 0 0 0) 640 480).1]⟩

/-- The tile-space position `on_mouse_position` records for one console:
the `mouse_pos` clamped-division mapping applied to that console's own
grid size. -/
def tileFor (ctx : BTerm) (c : DisplayConsole) : Int × Int :=
  (mouseTileCalc ctx.mouse_pos.1 c.console.get_char_size.1 ctx.width_pixels,
   mouseTileCalc ctx.mouse_pos.2 c.console.get_char_size.2 ctx.height_pixels)

lemma recordTiles_mouse_pixel (ctx : BTerm) (l : List DisplayConsole) :
    ∀ (input : InputM) (n : Nat),
    (recordTiles ctx input n l).mouse_pixel = input.mouse_pixel := by
  induction l with
  | nil => intro input n; rfl
  | cons c rest ih => intro input n; exact ih _ _

lemma recordTiles_events (ctx : BTerm) (l : List DisplayConsole) :
    ∀ (input : InputM) (n : Nat),
    (recordTiles ctx input n l).events = input.events := by
  induction l with
  | nil => intro input n; rfl
  | cons c rest ih => intro input n; exact ih _ _

lemma recordTiles_tile (ctx : BTerm) (l : List DisplayConsole) :
    ∀ (input : InputM) (n j : Nat),
    (recordTiles ctx input n l).mouse_tile j =
      if n ≤ j ∧ j < n + l.length then
        some (tileFor ctx (l.getD (j - n) default))
      else input.mouse_tile j := by
  induction l with
  | nil =>
    intro input n j
    have hcond : ¬ (n ≤ j ∧ j < n + ([] : List DisplayConsole).length) := by
      simp only [List.length_nil, Nat.add_zero]
      omega
    rw [if_neg hcond]
    rfl
  | cons c rest ih =>
    intro input n j
    have hstep : recordTiles ctx input n (c :: rest) =
        recordTiles ctx
          (input.on_mouse_tile_position n (tileFor ctx c).1 (tileFor ctx c).2)
          (n + 1) rest := rfl
    rw [hstep, ih]
    by_cases h1 : n + 1 ≤ j ∧ j < n + 1 + rest.length
    · rw [if_pos h1, if_pos (by constructor <;> [omega; simpa using by omega])]
      have hj : j - n = (j - (n + 1)) + 1 := by omega
      rw [hj, List.getD_cons_succ]
    · rw [if_neg h1]
      by_cases h2 : j = n
      · subst h2
        have : (InputM.on_mouse_tile_position input j (tileFor ctx c).1
            (tileFor ctx c).2).mouse_tile j = some (tileFor ctx c) := by
          simp [InputM.on_mouse_tile_position]
        rw [this, if_pos ⟨le_refl j, by simp⟩]
        simp
      · have : (InputM.on_mouse_tile_position input n (tileFor ctx c).1
            (tileFor ctx c).2).mouse_tile j = input.mouse_tile j := by
          simp [InputM.on_mouse_tile_position, h2]
        rw [this, if_neg (by simp only [List.length_cons]; omega)]

/-- **C6.** `on_mouse_position` sets the context's `mouse_pos` to the cast
coordinates, records the raw pixel position in the process-wide input
state, and records, for every registered console index `i`, that console's
clamped tile-space position under index `i`, computed with the same
clamped-division mapping as the `mouse_pos` accessor using that console's
own grid size (indices beyond the registry, and the event log, are left
untouched). -/
theorem on_mouse_position_spec (bi : BTermInternal) (ctx : BTerm)
    (input : InputM) (x y : Int) :
    (BTerm.on_mouse_position bi ctx input x y).1 =
      { ctx with mouse_pos := (x, y) } ∧
    (BTerm.on_mouse_position bi ctx input x y).2.mouse_pixel = (x, y) ∧
    (∀ i, i < bi.consoles.length →
      (BTerm.on_mouse_position bi ctx input x y).2.mouse_tile i =
        some (mouseTileCalc x
                (bi.consoles.getD i default).console.get_char_size.1
                ctx.width_pixels,
              mouseTileCalc y
                (bi.consoles.getD i default).console.get_char_size.2
                ctx.height_pixels)) ∧
    (∀ i, bi.consoles.length ≤ i →
      (BTerm.on_mouse_position bi ctx input x y).2.mouse_tile i =
        input.mouse_tile i) ∧
    (BTerm.on_mouse_position bi ctx input x y).2.events = input.events ∧
    (ctx.active_console < bi.consoles.length →
      BTerm.mouse_pos_fn bi (BTerm.on_mouse_position bi ctx input x y).1 =
        (BTerm.on_mouse_position bi ctx input x y).2.mouse_tile
          ctx.active_console) := by
  have htile : ∀ j, (BTerm.on_mouse_position bi ctx input x y).2.mouse_tile j =
      if 0 ≤ j ∧ j < 0 + bi.consoles.length then
        some (tileFor { ctx with mouse_pos := (x, y) }
          (bi.consoles.getD (j - 0) default))
      else (input.on_mouse_pixel_position x y).mouse_tile j := by
    intro j
    exact recordTiles_tile { ctx with mouse_pos := (x, y) } bi.consoles
      (input.on_mouse_pixel_position x y) 0 j
  refine ⟨rfl, ?_, ?_, ?_, ?_, ?_⟩
  · exact recordTiles_mouse_pixel _ _ _ _
  · intro i hi
    rw [htile i, if_pos ⟨Nat.zero_le i, by omega⟩]
    rfl
  · intro i hi
    rw [htile i, if_neg (by omega)]
    rfl
  · exact recordTiles_events _ _ _ _
  · intro hac
    have hsome : bi.consoles[ctx.active_console]? =
        some (bi.consoles.getD ctx.active_console default) := by
      rw [List.getElem?_eq_getElem hac, List.getD_eq_getElem _ _ hac]
    have hleft : BTerm.mouse_pos_fn bi
        (BTerm.on_mouse_position bi ctx input x y).1 =
        some (mouseTileCalc x
                (bi.consoles.getD ctx.active_console default).console.get_char_size.1
                ctx.width_pixels,
              mouseTileCalc y
                (bi.consoles.getD ctx.active_console default).console.get_char_size.2
                ctx.height_pixels) := by
      have hgd : bi.consoles.getD ctx.active_console default =
          bi.consoles[ctx.active_console] := List.getD_eq_getElem _ _ hac
      show BTerm.mouse_pos_fn bi { ctx with mouse_pos := (x, y) } = _
      rw [hgd]
      simp [BTerm.mouse_pos_fn, List.getElem?_eq_getElem hac,
        ConsoleM.get_char_size]
    rw [hleft, htile ctx.active_console, if_pos ⟨Nat.zero_le _, by omega⟩]
    rfl

/-- Witness for C6: with two registered consoles and console 0 active, the
mouse-move handler records console 1's (non-active) tile position. -/
theorem on_mouse_position_spec_witness :
    (BTerm.on_mouse_position (mkRegistry [mkSlot 4 4 0, mkSlot 10 8 1])
        (mkCtx 100 50 0 0 0) InputM.empty 55 27).2.mouse_tile 1 =
      some (5, 4) := by
  have h := (on_mouse_position_spec (mkRegistry [mkSlot 4 4 0, mkSlot 10 8 1])
    (mkCtx 100 50 0 0 0) InputM.empty 55 27).2.2.1 1 (by decide)
  rw [h]
  rfl

/-- The fonts appended by a sequence of registration calls, in order. -/
def regFonts : List RegOp → List Font
  | [] => []
  | .font f :: rest => f :: regFonts rest
  | .console _ _ :: rest => regFonts rest
  | .consoleNoBg _ _ :: rest => regFonts rest

/-- The console slots appended by a sequence of registration calls, in
order. -/
def regSlots : List RegOp → List DisplayConsole
  | [] => []
  | .font _ :: rest => regSlots rest
  | .console c fi :: rest =>
      { console := c, shader_index := 0, font_index := fi } :: regSlots rest
  | .consoleNoBg c fi :: rest =>
      { console := c, shader_index := 1, font_index := fi } :: regSlots rest

lemma runOps_fonts (ops : List RegOp) :
    ∀ bi : BTermInternal, (runOps bi ops).1.fonts = bi.fonts ++ regFonts ops := by
  induction ops with
  | nil => intro bi; simp [runOps, regFonts]
  | cons op rest ih =>
    intro bi
    cases op <;>
      simp [runOps, applyReg, BTerm.register_font, BTerm.register_console,
        BTerm.register_console_no_bg, regFonts, ih]

lemma runOps_consoles (ops : List RegOp) :
    ∀ bi : BTermInternal,
    (runOps bi ops).1.consoles = bi.consoles ++ regSlots ops := by
  induction ops with
  | nil => intro bi; simp [runOps, regSlots]
  | cons op rest ih =>
    intro bi
    cases op <;>
      simp [runOps, applyReg, BTerm.register_font, BTerm.register_console,
        BTerm.register_console_no_bg, regSlots, ih]

lemma runOps_length (ops : List RegOp) :
    ∀ bi : BTermInternal, (runOps bi ops).2.length = ops.length := by
  induction ops with
  | nil => intro bi; rfl
  | cons op rest ih => intro bi; simp [runOps, ih]

lemma runOps_idx (ops : List RegOp) :
    ∀ (bi : BTermInternal) (k : Nat), k < ops.length →
    (runOps bi ops).2.getD k 0 =
      if (ops.getD k default).isFont then
        bi.fonts.length + (ops.take k).countP RegOp.isFont
      else
        bi.consoles.length + (ops.take k).countP (fun o => !o.isFont) := by
  induction ops with
  | nil => intro bi k hk; exact absurd hk (by simp)
  | cons op rest ih =>
    intro bi k hk
    cases k with
    | zero =>
      cases op <;>
        simp [runOps, applyReg, BTerm.register_font, BTerm.register_console,
          BTerm.register_console_no_bg, RegOp.isFont, Except.toOption]
    | succ k =>
      have hk2 : k < rest.length := by
        simpa using Nat.lt_of_succ_lt_succ hk
      have hstep : (runOps bi (op :: rest)).2.getD (k + 1) 0 =
          (runOps (applyReg bi op).1 rest).2.getD k 0 := by
        rw [show (runOps bi (op :: rest)).2 =
          (applyReg bi op).2 :: (runOps (applyReg bi op).1 rest).2 from rfl,
          List.getD_cons_succ]
      have hfonts1 : (applyReg bi op).1.fonts.length =
          bi.fonts.length + (if op.isFont = true then 1 else 0) := by
        cases op <;> simp [applyReg, BTerm.register_font,
          BTerm.register_console, BTerm.register_console_no_bg, RegOp.isFont]
      have hcons1 : (applyReg bi op).1.consoles.length =
          bi.consoles.length + (if op.isFont = true then 0 else 1) := by
        cases op <;> simp [applyReg, BTerm.register_font,
          BTerm.register_console, BTerm.register_console_no_bg, RegOp.isFont]
      rw [hstep, ih (applyReg bi op).1 k hk2, List.getD_cons_succ,
        List.take_succ_cons, List.countP_cons, List.countP_cons,
        hfonts1, hcons1]
      by_cases hf : (rest.getD k default).isFont = true <;>
        [rw [if_pos hf, if_pos hf]; rw [if_neg hf, if_neg hf]] <;>
        cases hop : op.isFont <;>
        simp [hop] <;>
        omega

lemma countP_take_lt (P : RegOp → Bool) (ops : List RegOp) (k l : Nat)
    (hkl : k < l) (hl : l ≤ ops.length)
    (hP : P (ops.getD k default) = true) :
    (ops.take k).countP P < (ops.take l).countP P := by
  have hk : k < ops.length := lt_of_lt_of_le hkl hl
  have h1 : ops.take l = ops.take k ++ (ops.drop k).take (l - k) := by
    have h := List.take_add ops k (l - k)
    rw [show k + (l - k) = l from by omega] at h
    exact h
  have h2 : ops.drop k = ops[k] :: ops.drop (k + 1) :=
    List.drop_eq_getElem_cons hk
  have hPk : P ops[k] = true := by
    rw [← List.getD_eq_getElem ops default hk]
    exact hP
  obtain ⟨m, hm⟩ : ∃ m, l - k = m + 1 := ⟨l - k - 1, by omega⟩
  rw [h1, List.countP_append, h2, hm, List.take_succ_cons, List.countP_cons,
    hPk]
  simp

/-- **C4.** Each registration call appends one entry to its table and
returns the previous table length; across any call sequence the tables are
append-only (the old table stays a prefix) and the indices returned for
the same table are strictly increasing, hence never reused. -/
theorem registration_spec (bi : BTermInternal) (ops : List RegOp) :
    (∀ f, BTerm.register_font bi f =
      ({ bi with fonts := bi.fonts ++ [f] }, Except.ok bi.fonts.length)) ∧
    (∀ c fi, BTerm.register_console bi c fi =
      ({ bi with consoles := bi.consoles ++
          [{ console := c, shader_index := 0, font_index := fi }] },
       bi.consoles.length)) ∧
    (∀ c fi, BTerm.register_console_no_bg bi c fi =
      ({ bi with consoles := bi.consoles ++
          [{ console := c, shader_index := 1, font_index := fi }] },
       bi.consoles.length)) ∧
    (runOps bi ops).1.fonts.take bi.fonts.length = bi.fonts ∧
    (runOps bi ops).1.consoles.take bi.consoles.length = bi.consoles ∧
    (runOps bi ops).2.length = ops.length ∧
    (∀ k l, k < l → l < ops.length →
      (ops.getD k default).isFont = (ops.getD l default).isFont →
      (runOps bi ops).2.getD k 0 < (runOps bi ops).2.getD l 0) := by
  refine ⟨?_, ?_, ?_, ?_, ?_, runOps_length ops bi, ?_⟩
  · intro f
    simp [BTerm.register_font]
  · intro c fi
    simp [BTerm.register_console]
  · intro c fi
    simp [BTerm.register_console_no_bg]
  · rw [runOps_fonts ops bi]
    exact List.take_left _ _
  · rw [runOps_consoles ops bi]
    exact List.take_left _ _
  · intro k l hkl hl hsame
    have hk : k < ops.length := lt_trans hkl hl
    rw [runOps_idx ops bi k hk, runOps_idx ops bi l hl]
    by_cases hb : (ops.getD l default).isFont
    · rw [if_pos hb, if_pos (hsame.trans (by rw [hb]) : _ = true)]
      exact Nat.add_lt_add_left
        (countP_take_lt RegOp.isFont ops k l hkl (le_of_lt hl)
          (by rw [hsame, hb])) _
    · have hkb : (ops.getD k default).isFont = false := by
        rw [hsame]
        exact Bool.eq_false_iff.mpr hb
      rw [if_neg hb, if_neg (by rw [hsame]; exact hb)]
      exact Nat.add_lt_add_left
        (countP_take_lt (fun o => !o.isFont) ops k l hkl (le_of_lt hl)
          (by rw [show ((fun o : RegOp => !o.isFont) (ops.getD k default)) =
              (!(ops.getD k default).isFont) from rfl, hkb]; rfl)) _

/-- Witness for C4: a font, a console and a second font registered on an
empty registry receive indices 0, 0, 1; the two font indices strictly
increase. -/
theorem registration_spec_witness :
    (runOps BTermInternal.new
      [RegOp.font ⟨1⟩,
       RegOp.console { charSize := (4, 4), xpLayer := ⟨0⟩, sizePixels := none } 0,
       RegOp.font ⟨2⟩]).2 = [0, 0, 1] ∧
    (runOps BTermInternal.new
      [RegOp.font ⟨1⟩,
       RegOp.console { charSize := (4, 4), xpLayer := ⟨0⟩, sizePixels := none } 0,
       RegOp.font ⟨2⟩]).2.getD 0 0 <
    (runOps BTermInternal.new
      [RegOp.font ⟨1⟩,
       RegOp.console { charSize := (4, 4), xpLayer := ⟨0⟩, sizePixels := none } 0,
       RegOp.font ⟨2⟩]).2.getD 2 0 :=
  ⟨by decide,
   (registration_spec BTermInternal.new
      [RegOp.font ⟨1⟩,
       RegOp.console { charSize := (4, 4), xpLayer := ⟨0⟩, sizePixels := none } 0,
       RegOp.font ⟨2⟩]).2.2.2.2.2.2 0 2 (by decide) (by decide) (by decide)⟩

end BTermSpec
